import Mathlib

/-!
Verification development for the tool-calling orchestration loop of
`src/main.py` (AI-Agent-AzMigrate).

The program is a command-line chat loop: it reads a user prompt, issues a
first inference call (with a tool registry), executes any tool-call requests
the model returned, appends every message to a growing conversation list,
issues a final inference call, and prints the final candidate completions.
The whole loop body sits inside one `try ... except Exception` block.

Shallow embedding choices:
* External collaborators (the inference client `client.chat.completions.create`,
  the argument deserializer `json.loads`, and the tool executor
  `session.call_tool`) are modelled as oracle functions in an `Env` record,
  each returning `Except Exc _` so they can raise.
* A Python exception is modelled as an `Exc` value whose `catchable` flag
  records whether the exception is an instance of class `Exception`
  (which `except Exception` catches).  `EOFError` and `json.JSONDecodeError`
  are `Exception` subclasses, hence catchable; `KeyboardInterrupt` derives
  only from `BaseException`, hence not catchable.
* Conversation state is the Python list `messages`; appends are modelled by
  list concatenation and, as in the source, survive an exception raised
  later in the same iteration (the list is mutated in place).
* `[DEBUG]` trace prints are not modelled; `printed` records only the
  user-facing `print(item.message.content)` outputs of lines 131-133.
* The model identifier passed to the client is constant throughout and does
  not influence control flow, so it is omitted from the embedding.
-/

/-- A Python exception value.  `catchable` models `isinstance(e, Exception)`,
which is what the `except Exception` clause at line 134 of `main.py` tests. -/
structure Exc where
  name : String
  catchable : Bool
deriving DecidableEq, Repr

/-- Raised by `input()` at end of stream: `EOFError`, an `Exception` subclass. -/
def eofError : Exc := ⟨"EOFError", true⟩

/-- Raised on interrupt: `KeyboardInterrupt` derives from `BaseException`
only, so `except Exception` does not catch it. -/
def keyboardInterrupt : Exc := ⟨"KeyboardInterrupt", false⟩

/-- Raised by `json.loads` on a malformed payload: `json.JSONDecodeError`,
an `Exception` subclass. -/
def jsonDecodeError : Exc := ⟨"JSONDecodeError", true⟩

/-- Raised by `response.choices[0]` on an empty list: `IndexError`. -/
def indexError : Exc := ⟨"IndexError", true⟩

/-- The value produced by `json.loads` on a tool-call arguments payload.
No claim inspects the parsed structure, so it is kept abstract. -/
structure Args where
  raw : String
deriving DecidableEq, Repr

/-- Result of `session.call_tool`; the loop only reads `result.content`
(line 116 of `main.py`). -/
structure ToolResult where
  content : String
deriving DecidableEq, Repr

/-- The `function` field of a tool-call request: `tool_call.function.name`
and `tool_call.function.arguments` (a serialized payload). -/
structure ToolFunction where
  name : String
  arguments : String
deriving DecidableEq, Repr

/-- A tool-call request as returned by the inference client:
`tool_call.id` and `tool_call.function`. -/
structure ToolCall where
  id : String
  function : ToolFunction
deriving DecidableEq, Repr

/-- The assistant message `response.choices[i].message`: content plus the
list of tool-call requests.  Python `None` for `tool_calls` and the empty
list are both falsy at line 102, so both are modelled as `[]`. -/
structure AssistantMessage where
  content : String
  tool_calls : List ToolCall
deriving DecidableEq, Repr

/-- One entry of the `messages` list: the user dict appended at line 86,
the assistant message object appended at line 99, or the tool dict appended
at lines 112-117 (`tool_call_id`, `role: tool`, `name`, `content`). -/
inductive Message where
  | user (content : String)
  | assistant (message : AssistantMessage)
  | tool (tool_call_id : String) (name : String) (content : String)
deriving DecidableEq, Repr

/-- One candidate completion of an inference response. -/
structure Choice where
  message : AssistantMessage
deriving DecidableEq, Repr

/-- An inference response: `response.choices`. -/
structure Response where
  choices : List Choice
deriving DecidableEq, Repr

/-- A tool as advertised by discovery (`tools.tools` at line 60):
name, description, input schema.  The schema payload is abstract here. -/
structure ToolDescriptor where
  name : String
  description : String
  inputSchema : String
deriving DecidableEq, Repr

/-- The inner dict of a formatted tool entry (lines 70-74). -/
structure FormattedFunction where
  name : String
  description : String
  parameters : String
deriving DecidableEq, Repr

/-- One calling-convention entry of the registry (lines 68-75):
`{"type": "function", "function": {...}}`. -/
structure FormattedTool where
  type : String
  function : FormattedFunction
deriving DecidableEq, Repr

/-- Lines 67-76 of `main.py`: the Tool Registry builder.  A list
comprehension mapping each discovered descriptor to a calling-convention
entry, preserving order, copying name, description and schema verbatim. -/
def available_tools (tools : List ToolDescriptor) : List FormattedTool :=
  tools.map (fun tool => ⟨"function", ⟨tool.name, tool.description, tool.inputSchema⟩⟩)

/-- The external collaborators of the loop, as oracles.  `create` is the
inference client (it receives the message history and the formatted tools);
`jsonLoads` is `json.loads`; `callTool` is `session.call_tool`. -/
structure Env where
  create : List Message → List FormattedTool → Except Exc Response
  jsonLoads : String → Except Exc Args
  callTool : String → Args → Except Exc ToolResult

/-- Result of the tool-call `for` loop: the message list after the loop,
the tool-call requests actually passed to the executor (in order), and the
first exception raised, if any. -/
structure ToolLoopOut where
  messages : List Message
  executed : List ToolCall
  exc : Option Exc
deriving DecidableEq, Repr

/-- Lines 104-117 of `main.py`: for each tool-call request, in order,
deserialize the arguments (may raise), invoke the executor (may raise),
and append a tool-role message carrying the result content, correlated by
the request id.  There is no per-call exception handler in the source, so
a raise stops the loop at once; messages appended so far are kept. -/
def runToolCalls (env : Env) : List ToolCall → List Message → ToolLoopOut
  | [], ms => ⟨ms, [], none⟩
  | tc :: rest, ms =>
    match env.jsonLoads tc.function.arguments with
    | Except.error e => ⟨ms, [], some e⟩
    | Except.ok function_args =>
      match env.callTool tc.function.name function_args with
      | Except.error e => ⟨ms, [tc], some e⟩
      | Except.ok result =>
        match runToolCalls env rest (ms ++ [Message.tool tc.id tc.function.name result.content]) with
        | ⟨msgs, executed, exc⟩ => ⟨msgs, tc :: executed, exc⟩

/-- Outcome of the body of one loop iteration (the `try` block,
lines 83-133).  `firstCalledWith` / `finalCalledWith` record the argument
lists actually passed to the two inference calls (or `none` when the call
was never reached); `exc` is the exception that escaped the body, if any. -/
structure BodyOut where
  messages : List Message
  printed : List String
  executed : List ToolCall
  firstCalledWith : Option (List Message × List FormattedTool)
  finalCalledWith : Option (List Message × List FormattedTool)
  exc : Option Exc
deriving DecidableEq, Repr

/-- Lines 123-133 of `main.py`: the final-synthesis inference call on the
current messages, then a print of every candidate completion content. -/
def finalPhase (env : Env) (tools : List FormattedTool) (ms : List Message)
    (executed : List ToolCall) (firstCW : Option (List Message × List FormattedTool)) : BodyOut :=
  match env.create ms tools with
  | Except.error e => ⟨ms, [], executed, firstCW, some (ms, tools), some e⟩
  | Except.ok final_response =>
    ⟨ms, final_response.choices.map (fun item => item.message.content),
     executed, firstCW, some (ms, tools), none⟩

/-- Lines 99-133 of `main.py`, from the point where the first-call
assistant message `response_message` is in hand: append it, run the
tool-call loop (a no-op when `tool_calls` is empty, matching the falsy
check at line 102), then the final phase.  A raise in the tool loop
escapes the body with the messages appended so far. -/
def afterFirst (env : Env) (tools : List FormattedTool) (ms1 : List Message)
    (response_message : AssistantMessage) : BodyOut :=
  match runToolCalls env response_message.tool_calls (ms1 ++ [Message.assistant response_message]) with
  | ⟨msgs, executed, some e⟩ => ⟨msgs, [], executed, some (ms1, tools), none, some e⟩
  | ⟨msgs, executed, none⟩ => finalPhase env tools msgs executed (some (ms1, tools))

/-- Lines 84-133 of `main.py`: the whole `try` block of one iteration.
Read input (may raise), append the user message, issue the first inference
call (may raise), take `choices[0]` (IndexError when empty), and continue
with `afterFirst`. -/
def runTurnBody (env : Env) (tools : List FormattedTool) (ev : Except Exc String)
    (ms : List Message) : BodyOut :=
  match ev with
  | Except.error e => ⟨ms, [], [], none, none, some e⟩
  | Except.ok user_input =>
    match env.create (ms ++ [Message.user user_input]) tools with
    | Except.error e =>
      ⟨ms ++ [Message.user user_input], [], [],
       some (ms ++ [Message.user user_input], tools), none, some e⟩
    | Except.ok response =>
      match response.choices with
      | [] =>
        ⟨ms ++ [Message.user user_input], [], [],
         some (ms ++ [Message.user user_input], tools), none, some indexError⟩
      | choice0 :: _ =>
        afterFirst env tools (ms ++ [Message.user user_input]) choice0.message

/-- How one iteration ended: normally, with an exception caught by the
`except Exception` clause, or with an exception that escapes the handler
and terminates the process. -/
inductive Outcome where
  | completed
  | caught (e : Exc)
  | uncaught (e : Exc)
deriving DecidableEq, Repr

/-- Observable result of one iteration of the conversational loop. -/
structure TurnResult where
  messages : List Message
  printed : List String
  executed : List ToolCall
  firstCalledWith : Option (List Message × List FormattedTool)
  finalCalledWith : Option (List Message × List FormattedTool)
  outcome : Outcome
deriving DecidableEq, Repr

/-- Lines 82-136 of `main.py`: one iteration of `while True`, i.e. the
`try` body plus the `except Exception` handler.  A catchable exception is
logged and swallowed (no message is appended by the handler); a
non-catchable one escapes and terminates the process. -/
def runTurn (env : Env) (tools : List FormattedTool) (ev : Except Exc String)
    (ms : List Message) : TurnResult :=
  match runTurnBody env tools ev ms with
  | ⟨msgs, printed, executed, firstCW, finalCW, none⟩ =>
    ⟨msgs, printed, executed, firstCW, finalCW, Outcome.completed⟩
  | ⟨msgs, printed, executed, firstCW, finalCW, some e⟩ =>
    if e.catchable then ⟨msgs, printed, executed, firstCW, finalCW, Outcome.caught e⟩
    else ⟨msgs, printed, executed, firstCW, finalCW, Outcome.uncaught e⟩

/-- Observable result of running the loop over a finite prefix of input
events.  `terminated` records whether an uncatchable exception ended the
process before the modelled events were exhausted. -/
structure LoopOut where
  messages : List Message
  printed : List String
  terminated : Bool
deriving DecidableEq, Repr

/-- The `while True` loop over a finite list of modelled input events.
Each event is what `input()` does that iteration: return a line, or raise
(`EOFError` when the stream is closed, `KeyboardInterrupt` on interrupt).
The loop stops early only when an iteration ends `uncaught`. -/
def runLoop (env : Env) (tools : List FormattedTool) :
    List (Except Exc String) → List Message → LoopOut
  | [], ms => ⟨ms, [], false⟩
  | ev :: rest, ms =>
    match runTurn env tools ev ms with
    | ⟨msgs, printed, _, _, _, Outcome.uncaught _⟩ => ⟨msgs, printed, true⟩
    | ⟨msgs, printed, _, _, _, _⟩ =>
      match runLoop env tools rest msgs with
      | ⟨msgs2, printed2, terminated⟩ => ⟨msgs2, printed ++ printed2, terminated⟩

/-- A tool-role message correlates with a tool-call request when it carries
the request id and the tool name (content is whatever the executor said). -/
def toolMsgMatches (tc : ToolCall) (m : Message) : Prop :=
  ∃ content, m = Message.tool tc.id tc.function.name content

/-! ## Step lemmas for the tool-call loop -/

theorem runToolCalls_nil (env : Env) (ms : List Message) :
    runToolCalls env [] ms = ⟨ms, [], none⟩ := rfl

theorem runToolCalls_cons_parseError (env : Env) (tc : ToolCall) (rest : List ToolCall)
    (ms : List Message) (e : Exc)
    (h : env.jsonLoads tc.function.arguments = Except.error e) :
    runToolCalls env (tc :: rest) ms = ⟨ms, [], some e⟩ := by
  unfold runToolCalls
  rw [h]

theorem runToolCalls_cons_execError (env : Env) (tc : ToolCall) (rest : List ToolCall)
    (ms : List Message) (a : Args) (e : Exc)
    (hj : env.jsonLoads tc.function.arguments = Except.ok a)
    (hc : env.callTool tc.function.name a = Except.error e) :
    runToolCalls env (tc :: rest) ms = ⟨ms, [tc], some e⟩ := by
  unfold runToolCalls
  simp only [hj, hc]

theorem runToolCalls_cons_ok (env : Env) (tc : ToolCall) (rest : List ToolCall)
    (ms : List Message) (a : Args) (r : ToolResult)
    (hj : env.jsonLoads tc.function.arguments = Except.ok a)
    (hc : env.callTool tc.function.name a = Except.ok r) :
    runToolCalls env (tc :: rest) ms =
      ⟨(runToolCalls env rest (ms ++ [Message.tool tc.id tc.function.name r.content])).messages,
       tc :: (runToolCalls env rest (ms ++ [Message.tool tc.id tc.function.name r.content])).executed,
       (runToolCalls env rest (ms ++ [Message.tool tc.id tc.function.name r.content])).exc⟩ := by
  rcases hout : runToolCalls env rest (ms ++ [Message.tool tc.id tc.function.name r.content]) with
    ⟨msgs, executed, exc⟩
  conv_lhs => unfold runToolCalls
  simp only [hj, hc, hout]

/-- When every request in the list parses and executes successfully, the
loop appends exactly one matching tool-role message per request, in order,
invokes every request, and raises nothing. -/
theorem runToolCalls_all_ok (env : Env) (cs : List ToolCall)
    (h : ∀ tc ∈ cs, ∃ a r, env.jsonLoads tc.function.arguments = Except.ok a ∧
        env.callTool tc.function.name a = Except.ok r) :
    ∀ ms : List Message, ∃ tms : List Message,
      List.Forall₂ toolMsgMatches cs tms ∧
      runToolCalls env cs ms = ⟨ms ++ tms, cs, none⟩ := by
  induction cs with
  | nil =>
    intro ms
    exact ⟨[], List.Forall₂.nil, by simp [runToolCalls_nil]⟩
  | cons tc rest ih =>
    intro ms
    obtain ⟨a, r, hj, hc⟩ := h tc (List.mem_cons_self tc rest)
    obtain ⟨tms, hall, heq⟩ :=
      ih (fun x hx => h x (List.mem_cons_of_mem tc hx))
        (ms ++ [Message.tool tc.id tc.function.name r.content])
    refine ⟨Message.tool tc.id tc.function.name r.content :: tms, ?_, ?_⟩
    · exact List.Forall₂.cons ⟨r.content, rfl⟩ hall
    · rw [runToolCalls_cons_ok env tc rest ms a r hj hc, heq]
      simp

/-- When every request before position `j` succeeds and the request at
position `j` fails (either its arguments payload fails to parse, or the
executor raises), the loop stops at `j`: exactly the earlier requests got
tool-role messages, the later ones were never invoked, and the exception
escapes. -/
theorem runToolCalls_fail_at (env : Env) (pre : List ToolCall) (c : ToolCall)
    (post : List ToolCall) (e : Exc)
    (hpre : ∀ tc ∈ pre, ∃ a r, env.jsonLoads tc.function.arguments = Except.ok a ∧
        env.callTool tc.function.name a = Except.ok r)
    (hfail : env.jsonLoads c.function.arguments = Except.error e ∨
        ∃ a, env.jsonLoads c.function.arguments = Except.ok a ∧
            env.callTool c.function.name a = Except.error e) :
    ∀ ms : List Message, ∃ tms : List Message,
      List.Forall₂ toolMsgMatches pre tms ∧
      (runToolCalls env (pre ++ c :: post) ms).messages = ms ++ tms ∧
      ((runToolCalls env (pre ++ c :: post) ms).executed = pre ∨
        (runToolCalls env (pre ++ c :: post) ms).executed = pre ++ [c]) ∧
      (runToolCalls env (pre ++ c :: post) ms).exc = some e := by
  induction pre with
  | nil =>
    intro ms
    refine ⟨[], List.Forall₂.nil, ?_⟩
    rcases hfail with hp | ⟨a, hj, hc⟩
    · rw [List.nil_append, runToolCalls_cons_parseError env c post ms e hp]
      simp
    · rw [List.nil_append, runToolCalls_cons_execError env c post ms a e hj hc]
      simp
  | cons tc rest ih =>
    intro ms
    obtain ⟨a, r, hj, hc⟩ := hpre tc (List.mem_cons_self tc rest)
    obtain ⟨tms, hall, hmsgs, hexec, hexc⟩ :=
      ih (fun x hx => hpre x (List.mem_cons_of_mem tc hx))
        (ms ++ [Message.tool tc.id tc.function.name r.content])
    refine ⟨Message.tool tc.id tc.function.name r.content :: tms,
      List.Forall₂.cons ⟨r.content, rfl⟩ hall, ?_, ?_, ?_⟩
    · rw [List.cons_append, runToolCalls_cons_ok env tc (rest ++ c :: post) ms a r hj hc]
      simpa using hmsgs
    · rw [List.cons_append, runToolCalls_cons_ok env tc (rest ++ c :: post) ms a r hj hc]
      rcases hexec with hx | hx
      · left; simpa using hx
      · right; simpa using hx
    · rw [List.cons_append, runToolCalls_cons_ok env tc (rest ++ c :: post) ms a r hj hc]
      simpa using hexc

/-- The tool-call loop only ever appends to the message list. -/
theorem runToolCalls_messages_shape (env : Env) (cs : List ToolCall) :
    ∀ ms : List Message, ∃ t : List Message,
      (runToolCalls env cs ms).messages = ms ++ t := by
  induction cs with
  | nil => intro ms; exact ⟨[], by simp [runToolCalls_nil]⟩
  | cons tc rest ih =>
    intro ms
    cases hj : env.jsonLoads tc.function.arguments with
    | error e =>
      exact ⟨[], by rw [runToolCalls_cons_parseError env tc rest ms e hj]; simp⟩
    | ok a =>
      cases hc : env.callTool tc.function.name a with
      | error e =>
        exact ⟨[], by rw [runToolCalls_cons_execError env tc rest ms a e hj hc]; simp⟩
      | ok r =>
        obtain ⟨t, ht⟩ := ih (ms ++ [Message.tool tc.id tc.function.name r.content])
        refine ⟨Message.tool tc.id tc.function.name r.content :: t, ?_⟩
        rw [runToolCalls_cons_ok env tc rest ms a r hj hc]
        simpa using ht

/-! ## Unfolding lemmas for the iteration body, the handler, and the loop -/

theorem runTurnBody_inputError (env : Env) (tools : List FormattedTool) (e : Exc)
    (ms : List Message) :
    runTurnBody env tools (Except.error e) ms = ⟨ms, [], [], none, none, some e⟩ := rfl

theorem runTurnBody_createError (env : Env) (tools : List FormattedTool) (u : String)
    (ms : List Message) (e : Exc)
    (h : env.create (ms ++ [Message.user u]) tools = Except.error e) :
    runTurnBody env tools (Except.ok u) ms =
      ⟨ms ++ [Message.user u], [], [], some (ms ++ [Message.user u], tools), none, some e⟩ := by
  unfold runTurnBody
  simp only [h]

theorem runTurnBody_emptyChoices (env : Env) (tools : List FormattedTool) (u : String)
    (ms : List Message) (resp : Response)
    (h : env.create (ms ++ [Message.user u]) tools = Except.ok resp)
    (hch : resp.choices = []) :
    runTurnBody env tools (Except.ok u) ms =
      ⟨ms ++ [Message.user u], [], [], some (ms ++ [Message.user u], tools), none,
       some indexError⟩ := by
  unfold runTurnBody
  simp only [h, hch]

theorem runTurnBody_choice (env : Env) (tools : List FormattedTool) (u : String)
    (ms : List Message) (resp : Response) (choice0 : Choice) (cr : List Choice)
    (h : env.create (ms ++ [Message.user u]) tools = Except.ok resp)
    (hch : resp.choices = choice0 :: cr) :
    runTurnBody env tools (Except.ok u) ms =
      afterFirst env tools (ms ++ [Message.user u]) choice0.message := by
  unfold runTurnBody
  simp only [h, hch]

theorem afterFirst_exc (env : Env) (tools : List FormattedTool) (ms1 : List Message)
    (rm : AssistantMessage) (msgs : List Message) (executed : List ToolCall) (e : Exc)
    (h : runToolCalls env rm.tool_calls (ms1 ++ [Message.assistant rm]) =
      ⟨msgs, executed, some e⟩) :
    afterFirst env tools ms1 rm = ⟨msgs, [], executed, some (ms1, tools), none, some e⟩ := by
  unfold afterFirst
  simp only [h]

theorem afterFirst_ok (env : Env) (tools : List FormattedTool) (ms1 : List Message)
    (rm : AssistantMessage) (msgs : List Message) (executed : List ToolCall)
    (h : runToolCalls env rm.tool_calls (ms1 ++ [Message.assistant rm]) =
      ⟨msgs, executed, none⟩) :
    afterFirst env tools ms1 rm = finalPhase env tools msgs executed (some (ms1, tools)) := by
  unfold afterFirst
  simp only [h]

theorem finalPhase_error (env : Env) (tools : List FormattedTool) (ms : List Message)
    (executed : List ToolCall) (fcw : Option (List Message × List FormattedTool)) (e : Exc)
    (h : env.create ms tools = Except.error e) :
    finalPhase env tools ms executed fcw = ⟨ms, [], executed, fcw, some (ms, tools), some e⟩ := by
  unfold finalPhase
  simp only [h]

theorem finalPhase_ok (env : Env) (tools : List FormattedTool) (ms : List Message)
    (executed : List ToolCall) (fcw : Option (List Message × List FormattedTool))
    (resp : Response) (h : env.create ms tools = Except.ok resp) :
    finalPhase env tools ms executed fcw =
      ⟨ms, resp.choices.map (fun item => item.message.content), executed, fcw,
       some (ms, tools), none⟩ := by
  unfold finalPhase
  simp only [h]

theorem runTurn_completed (env : Env) (tools : List FormattedTool) (ev : Except Exc String)
    (ms msgs : List Message) (printed : List String) (executed : List ToolCall)
    (f1 f2 : Option (List Message × List FormattedTool))
    (h : runTurnBody env tools ev ms = ⟨msgs, printed, executed, f1, f2, none⟩) :
    runTurn env tools ev ms = ⟨msgs, printed, executed, f1, f2, Outcome.completed⟩ := by
  unfold runTurn
  simp only [h]

theorem runTurn_caught (env : Env) (tools : List FormattedTool) (ev : Except Exc String)
    (ms msgs : List Message) (printed : List String) (executed : List ToolCall)
    (f1 f2 : Option (List Message × List FormattedTool)) (e : Exc)
    (h : runTurnBody env tools ev ms = ⟨msgs, printed, executed, f1, f2, some e⟩)
    (hc : e.catchable = true) :
    runTurn env tools ev ms = ⟨msgs, printed, executed, f1, f2, Outcome.caught e⟩ := by
  unfold runTurn
  simp only [h, hc, if_true]

theorem runTurn_uncaught (env : Env) (tools : List FormattedTool) (ev : Except Exc String)
    (ms msgs : List Message) (printed : List String) (executed : List ToolCall)
    (f1 f2 : Option (List Message × List FormattedTool)) (e : Exc)
    (h : runTurnBody env tools ev ms = ⟨msgs, printed, executed, f1, f2, some e⟩)
    (hc : e.catchable = false) :
    runTurn env tools ev ms = ⟨msgs, printed, executed, f1, f2, Outcome.uncaught e⟩ := by
  unfold runTurn
  simp [h, hc]

theorem runLoop_nil (env : Env) (tools : List FormattedTool) (ms : List Message) :
    runLoop env tools [] ms = ⟨ms, [], false⟩ := rfl

theorem runLoop_cons_completed (env : Env) (tools : List FormattedTool)
    (ev : Except Exc String) (rest : List (Except Exc String)) (ms msgs : List Message)
    (printed : List String) (executed : List ToolCall)
    (f1 f2 : Option (List Message × List FormattedTool))
    (h : runTurn env tools ev ms = ⟨msgs, printed, executed, f1, f2, Outcome.completed⟩) :
    runLoop env tools (ev :: rest) ms =
      ⟨(runLoop env tools rest msgs).messages,
       printed ++ (runLoop env tools rest msgs).printed,
       (runLoop env tools rest msgs).terminated⟩ := by
  rcases hout : runLoop env tools rest msgs with ⟨msgs2, printed2, terminated⟩
  conv_lhs => unfold runLoop
  simp only [h, hout]

theorem runLoop_cons_caught (env : Env) (tools : List FormattedTool)
    (ev : Except Exc String) (rest : List (Except Exc String)) (ms msgs : List Message)
    (printed : List String) (executed : List ToolCall)
    (f1 f2 : Option (List Message × List FormattedTool)) (e : Exc)
    (h : runTurn env tools ev ms = ⟨msgs, printed, executed, f1, f2, Outcome.caught e⟩) :
    runLoop env tools (ev :: rest) ms =
      ⟨(runLoop env tools rest msgs).messages,
       printed ++ (runLoop env tools rest msgs).printed,
       (runLoop env tools rest msgs).terminated⟩ := by
  rcases hout : runLoop env tools rest msgs with ⟨msgs2, printed2, terminated⟩
  conv_lhs => unfold runLoop
  simp only [h, hout]

theorem runLoop_cons_uncaught (env : Env) (tools : List FormattedTool)
    (ev : Except Exc String) (rest : List (Except Exc String)) (ms msgs : List Message)
    (printed : List String) (executed : List ToolCall)
    (f1 f2 : Option (List Message × List FormattedTool)) (e : Exc)
    (h : runTurn env tools ev ms = ⟨msgs, printed, executed, f1, f2, Outcome.uncaught e⟩) :
    runLoop env tools (ev :: rest) ms = ⟨msgs, printed, true⟩ := by
  conv_lhs => unfold runLoop
  simp only [h]

/-! ## Characterization lemmas -/

/-- The handler never edits the conversation, the executed-call trace, or
the records of which inference calls were issued: those fields of the
iteration result are exactly those of the `try` body. -/
theorem runTurn_eq_body_fields (env : Env) (tools : List FormattedTool)
    (ev : Except Exc String) (ms : List Message) :
    (runTurn env tools ev ms).messages = (runTurnBody env tools ev ms).messages ∧
    (runTurn env tools ev ms).executed = (runTurnBody env tools ev ms).executed ∧
    (runTurn env tools ev ms).firstCalledWith = (runTurnBody env tools ev ms).firstCalledWith ∧
    (runTurn env tools ev ms).finalCalledWith = (runTurnBody env tools ev ms).finalCalledWith := by
  rcases h : runTurnBody env tools ev ms with ⟨m, p, x, f1, f2, exc⟩
  unfold runTurn
  simp only [h]
  cases exc with
  | none => simp
  | some e => by_cases hc : e.catchable <;> simp [hc]

/-- An iteration ends `completed` exactly when its body raised nothing. -/
theorem runTurn_completed_iff (env : Env) (tools : List FormattedTool)
    (ev : Except Exc String) (ms : List Message) :
    (runTurn env tools ev ms).outcome = Outcome.completed ↔
      (runTurnBody env tools ev ms).exc = none := by
  rcases h : runTurnBody env tools ev ms with ⟨m, p, x, f1, f2, exc⟩
  unfold runTurn
  simp only [h]
  cases exc with
  | none => simp
  | some e => by_cases hc : e.catchable <;> simp [hc]

/-- When the body raises, the final print loop of lines 131-133 was never
reached, so nothing was printed that iteration. -/
theorem runTurnBody_printed_of_exc (env : Env) (tools : List FormattedTool)
    (ev : Except Exc String) (ms : List Message) (e : Exc)
    (h : (runTurnBody env tools ev ms).exc = some e) :
    (runTurnBody env tools ev ms).printed = [] := by
  cases ev with
  | error e2 => rfl
  | ok u =>
    cases hcr : env.create (ms ++ [Message.user u]) tools with
    | error e2 => rw [runTurnBody_createError env tools u ms e2 hcr]
    | ok resp =>
      cases hch : resp.choices with
      | nil => rw [runTurnBody_emptyChoices env tools u ms resp hcr hch]
      | cons choice0 cr =>
        rw [runTurnBody_choice env tools u ms resp choice0 cr hcr hch] at h ⊢
        rcases htl : runToolCalls env choice0.message.tool_calls
            ((ms ++ [Message.user u]) ++ [Message.assistant choice0.message]) with
          ⟨msgs, executed, exc⟩
        cases exc with
        | some e2 =>
          rw [afterFirst_exc env tools (ms ++ [Message.user u]) choice0.message msgs executed e2 htl]
        | none =>
          rw [afterFirst_ok env tools (ms ++ [Message.user u]) choice0.message msgs executed htl]
            at h ⊢
          cases hfin : env.create msgs tools with
          | error e2 =>
            rw [finalPhase_error env tools msgs executed (some (ms ++ [Message.user u], tools)) e2 hfin]
          | ok resp2 =>
            rw [finalPhase_ok env tools msgs executed (some (ms ++ [Message.user u], tools)) resp2 hfin]
              at h
            simp at h

/-- When the body raises nothing, the final-synthesis call was issued with
exactly the resulting message list and the same tool registry, it returned
some response, and every candidate completion content of that response was
printed. -/
theorem runTurnBody_exc_none_spec (env : Env) (tools : List FormattedTool)
    (ev : Except Exc String) (ms : List Message)
    (h : (runTurnBody env tools ev ms).exc = none) :
    (runTurnBody env tools ev ms).finalCalledWith =
      some ((runTurnBody env tools ev ms).messages, tools) ∧
    ∃ resp2, env.create (runTurnBody env tools ev ms).messages tools = Except.ok resp2 ∧
      (runTurnBody env tools ev ms).printed =
        resp2.choices.map (fun item => item.message.content) := by
  cases ev with
  | error e2 => simp [runTurnBody_inputError] at h
  | ok u =>
    cases hcr : env.create (ms ++ [Message.user u]) tools with
    | error e2 => rw [runTurnBody_createError env tools u ms e2 hcr] at h; simp at h
    | ok resp =>
      cases hch : resp.choices with
      | nil => rw [runTurnBody_emptyChoices env tools u ms resp hcr hch] at h; simp at h
      | cons choice0 cr =>
        rw [runTurnBody_choice env tools u ms resp choice0 cr hcr hch] at h ⊢
        rcases htl : runToolCalls env choice0.message.tool_calls
            ((ms ++ [Message.user u]) ++ [Message.assistant choice0.message]) with
          ⟨msgs, executed, exc⟩
        cases exc with
        | some e2 =>
          rw [afterFirst_exc env tools (ms ++ [Message.user u]) choice0.message msgs executed e2 htl]
            at h
          simp at h
        | none =>
          rw [afterFirst_ok env tools (ms ++ [Message.user u]) choice0.message msgs executed htl]
            at h ⊢
          cases hfin : env.create msgs tools with
          | error e2 =>
            rw [finalPhase_error env tools msgs executed (some (ms ++ [Message.user u], tools)) e2 hfin]
              at h
            simp at h
          | ok resp2 =>
            rw [finalPhase_ok env tools msgs executed (some (ms ++ [Message.user u], tools)) resp2 hfin]
            exact ⟨rfl, resp2, hfin, rfl⟩

/-! ## Concrete environments used by counterexamples and witnesses -/

@[simp] theorem Choice_message_mk (am : AssistantMessage) : (Choice.mk am).message = am := rfl

/-- An assistant message with no tool-call requests. -/
def amPlain : AssistantMessage := ⟨"hello", []⟩

/-- A one-candidate response carrying `amPlain`. -/
def respPlain : Response := ⟨[⟨amPlain⟩]⟩

/-- An environment whose client always answers `respPlain` and whose
deserializer and executor always succeed. -/
def envPlain : Env :=
  ⟨fun _ _ => Except.ok respPlain, fun s => Except.ok ⟨s⟩, fun n _ => Except.ok ⟨n⟩⟩

/-- A generic catchable inference failure (network or auth error). -/
def apiError : Exc := ⟨"APIConnectionError", true⟩

/-- An environment whose inference client always raises. -/
def envApiFail : Env :=
  ⟨fun _ _ => Except.error apiError, fun s => Except.ok ⟨s⟩, fun n _ => Except.ok ⟨n⟩⟩

/-- A well-formed tool-call request for `toolA`. -/
def tcA : ToolCall := ⟨"call_1", ⟨"toolA", "{}"⟩⟩

/-- A well-formed tool-call request for `toolB`. -/
def tcB : ToolCall := ⟨"call_2", ⟨"toolB", "{}"⟩⟩

/-- A tool-call request whose arguments payload is not valid structured
data. -/
def tcBad : ToolCall := ⟨"call_bad", ⟨"toolB", "not json"⟩⟩

/-- Assistant message whose first request is malformed and whose second is
fine. -/
def amBadFirst : AssistantMessage := ⟨"", [tcBad, tcB]⟩

/-- Assistant message whose first request is fine and whose second is
malformed. -/
def amGoodThenBad : AssistantMessage := ⟨"", [tcA, tcBad]⟩

/-- Assistant message with two well-formed requests. -/
def amTwoCalls : AssistantMessage := ⟨"", [tcA, tcB]⟩

/-- Environment whose first call of the session (history of length 1)
answers with the given assistant message, whose deserializer accepts only
the payload of an empty object, and whose executor echoes the tool name. -/
def envWith (am : AssistantMessage) : Env :=
  ⟨fun ms2 _ => if ms2.length = 1 then Except.ok ⟨[⟨am⟩]⟩ else Except.ok respPlain,
   fun s => if s = "{}" then Except.ok ⟨s⟩ else Except.error jsonDecodeError,
   fun n _ => Except.ok ⟨n⟩⟩

/-! ## Claim C8 -/

/-- Claim C8: the Tool Registry builder produces exactly one
calling-convention entry per discovered descriptor, in discovery order,
carrying name, description and parameter schema verbatim; an empty
discovery list yields an empty registry. -/
theorem c8_registry_verbatim (ts : List ToolDescriptor) :
    (available_tools ts).length = ts.length ∧
    (∀ i (h1 : i < ts.length) (h2 : i < (available_tools ts).length),
      (available_tools ts).get ⟨i, h2⟩ =
        ⟨"function", ⟨(ts.get ⟨i, h1⟩).name, (ts.get ⟨i, h1⟩).description,
          (ts.get ⟨i, h1⟩).inputSchema⟩⟩) ∧
    available_tools [] = [] := by
  refine ⟨by simp [available_tools], ?_, rfl⟩
  intro i h1 h2
  simp [available_tools]

/-- Witness for C8 at one concrete descriptor. -/
theorem c8_registry_verbatim_witness :
    (available_tools [⟨"vm_list", "lists vms", "schema"⟩]).get ⟨0, by decide⟩ =
      ⟨"function", ⟨"vm_list", "lists vms", "schema"⟩⟩ :=
  (c8_registry_verbatim [⟨"vm_list", "lists vms", "schema"⟩]).2.1 0 (by decide) (by decide)

/-! ## Claim C7 -/

/-- Claim C7 (recording the actual code behavior): when the input stream
is closed, `input()` raises `EOFError`, which is an `Exception` subclass,
so the handler at line 134 catches it and the loop runs again -- the
process does not terminate, contrary to the claim.  Only an interrupt
(`KeyboardInterrupt`, not an `Exception` subclass) escapes the handler and
terminates the process. -/
theorem c7_code_behavior :
    (runTurn envPlain [] (Except.error eofError) []).outcome = Outcome.caught eofError ∧
    (runLoop envPlain [] [Except.error eofError, Except.error eofError] []).terminated = false ∧
    (runLoop envPlain [] [Except.error keyboardInterrupt] []).terminated = true := by
  decide

/-! ## Claim C5 -/

/-- Claim C5: when the first inference call of a turn raises, exactly the
initiating user message is appended for that turn, no tool is executed,
the final-synthesis call is never issued, the exception is caught, and the
loop goes on to process the next prompt from the new state. -/
theorem c5_first_inference_failure (env : Env) (tools : List FormattedTool)
    (ms : List Message) (u : String) (rest : List (Except Exc String)) (e : Exc)
    (h : env.create (ms ++ [Message.user u]) tools = Except.error e)
    (hc : e.catchable = true) :
    (runTurn env tools (Except.ok u) ms).messages = ms ++ [Message.user u] ∧
    (runTurn env tools (Except.ok u) ms).executed = [] ∧
    (runTurn env tools (Except.ok u) ms).finalCalledWith = none ∧
    (runTurn env tools (Except.ok u) ms).outcome = Outcome.caught e ∧
    runLoop env tools (Except.ok u :: rest) ms = runLoop env tools rest (ms ++ [Message.user u]) := by
  have hb := runTurnBody_createError env tools u ms e h
  have ht := runTurn_caught env tools (Except.ok u) ms _ _ _ _ _ e hb hc
  refine ⟨by rw [ht], by rw [ht], by rw [ht], by rw [ht], ?_⟩
  rw [runLoop_cons_caught env tools (Except.ok u) rest ms _ _ _ _ _ e ht]
  rcases runLoop env tools rest (ms ++ [Message.user u]) with ⟨m2, p2, t2⟩
  simp

/-- Witness for C5: a concrete environment whose client raises. -/
theorem c5_first_inference_failure_witness :
    (envApiFail.create [Message.user "hi"] [] = Except.error apiError) ∧
    ((runTurn envApiFail [] (Except.ok "hi") []).messages = [Message.user "hi"] ∧
     (runTurn envApiFail [] (Except.ok "hi") []).executed = [] ∧
     (runTurn envApiFail [] (Except.ok "hi") []).finalCalledWith = none ∧
     (runTurn envApiFail [] (Except.ok "hi") []).outcome = Outcome.caught apiError ∧
     runLoop envApiFail [] [Except.ok "hi"] [] = runLoop envApiFail [] [] [Message.user "hi"]) :=
  ⟨rfl, c5_first_inference_failure envApiFail [] [] "hi" [] apiError rfl rfl⟩

/-! ## Claim C4 -/

/-- Claim C4: any exception (any `Exception` instance, which is what the
handler tests for) raised inside one iteration is caught at the iteration
boundary and the loop returns to awaiting input: the conversation keeps
exactly the messages the body had appended, nothing corrective is added,
and the process continues with the remaining input events. -/
theorem c4_catch_at_iteration (env : Env) (tools : List FormattedTool)
    (ev : Except Exc String) (ms : List Message) (rest : List (Except Exc String)) (e : Exc)
    (hexc : (runTurnBody env tools ev ms).exc = some e)
    (hc : e.catchable = true) :
    (runTurn env tools ev ms).outcome = Outcome.caught e ∧
    (runTurn env tools ev ms).messages = (runTurnBody env tools ev ms).messages ∧
    runLoop env tools (ev :: rest) ms =
      runLoop env tools rest ((runTurnBody env tools ev ms).messages) := by
  have hp := runTurnBody_printed_of_exc env tools ev ms e hexc
  have hbody : runTurnBody env tools ev ms =
      ⟨(runTurnBody env tools ev ms).messages, (runTurnBody env tools ev ms).printed,
       (runTurnBody env tools ev ms).executed, (runTurnBody env tools ev ms).firstCalledWith,
       (runTurnBody env tools ev ms).finalCalledWith, some e⟩ := by
    rw [← hexc]
  have ht := runTurn_caught env tools ev ms _ _ _ _ _ e hbody hc
  refine ⟨by rw [ht], by rw [ht], ?_⟩
  rw [runLoop_cons_caught env tools ev rest ms _ _ _ _ _ e ht, hp]
  rcases runLoop env tools rest ((runTurnBody env tools ev ms).messages) with ⟨m2, p2, t2⟩
  simp

/-- Witness for C4: a catchable inference failure is caught and the loop
moves on. -/
theorem c4_catch_at_iteration_witness :
    ((runTurnBody envApiFail [] (Except.ok "hey") []).exc = some apiError) ∧
    ((runTurn envApiFail [] (Except.ok "hey") []).outcome = Outcome.caught apiError ∧
     (runTurn envApiFail [] (Except.ok "hey") []).messages =
       (runTurnBody envApiFail [] (Except.ok "hey") []).messages ∧
     runLoop envApiFail [] [Except.ok "hey"] [] =
       runLoop envApiFail [] [] ((runTurnBody envApiFail [] (Except.ok "hey") []).messages)) :=
  ⟨rfl, c4_catch_at_iteration envApiFail [] (Except.ok "hey") [] [] apiError rfl rfl⟩

/-- The handler also leaves the printed output of the body unchanged. -/
theorem runTurn_printed_eq_body (env : Env) (tools : List FormattedTool)
    (ev : Except Exc String) (ms : List Message) :
    (runTurn env tools ev ms).printed = (runTurnBody env tools ev ms).printed := by
  rcases h : runTurnBody env tools ev ms with ⟨m, p, x, f1, f2, exc⟩
  unfold runTurn
  simp only [h]
  cases exc with
  | none => simp
  | some e => by_cases hc : e.catchable <;> simp [hc]

/-! ## Claim C6 -/

/-- Claim C6: every turn that completes without error issues the
final-synthesis inference call, with the current conversation state and
the same tool registry; in particular, when the first-call assistant
message carried zero tool-call requests, the final call is made with the
state exactly as it stood after the first call appended that assistant
message (no tool message in between). -/
theorem c6_final_call_always (env : Env) (tools : List FormattedTool) (ms : List Message)
    (u : String)
    (hdone : (runTurn env tools (Except.ok u) ms).outcome = Outcome.completed) :
    (runTurn env tools (Except.ok u) ms).finalCalledWith =
      some ((runTurn env tools (Except.ok u) ms).messages, tools) ∧
    (∀ am cr, env.create (ms ++ [Message.user u]) tools = Except.ok ⟨⟨am⟩ :: cr⟩ →
      am.tool_calls = [] →
      (runTurn env tools (Except.ok u) ms).finalCalledWith =
        some (ms ++ [Message.user u, Message.assistant am], tools)) := by
  have hfields := runTurn_eq_body_fields env tools (Except.ok u) ms
  constructor
  · have hnone := (runTurn_completed_iff env tools (Except.ok u) ms).mp hdone
    obtain ⟨hfin, _⟩ := runTurnBody_exc_none_spec env tools (Except.ok u) ms hnone
    rw [hfields.2.2.2, hfields.1]
    exact hfin
  · intro am cr hcr hnt
    have hb := runTurnBody_choice env tools u ms ⟨⟨am⟩ :: cr⟩ ⟨am⟩ cr hcr rfl
    simp only [Choice_message_mk] at hb
    have htl : runToolCalls env am.tool_calls
        ((ms ++ [Message.user u]) ++ [Message.assistant am]) =
        ⟨(ms ++ [Message.user u]) ++ [Message.assistant am], [], none⟩ := by
      rw [hnt, runToolCalls_nil]
    have haf := afterFirst_ok env tools (ms ++ [Message.user u]) am _ _ htl
    rw [hfields.2.2.2, hb, haf]
    cases hfin2 : env.create ((ms ++ [Message.user u]) ++ [Message.assistant am]) tools with
    | error e2 =>
      rw [finalPhase_error env tools _ _ _ e2 hfin2]
      simp
    | ok r2 =>
      rw [finalPhase_ok env tools _ _ _ r2 hfin2]
      simp

/-- Witness for C6: with no tool calls requested, the final call is still
issued, on the two-message state. -/
theorem c6_final_call_always_witness :
    ((runTurn envPlain [] (Except.ok "hi") []).outcome = Outcome.completed) ∧
    (runTurn envPlain [] (Except.ok "hi") []).finalCalledWith =
      some ((runTurn envPlain [] (Except.ok "hi") []).messages, []) ∧
    (runTurn envPlain [] (Except.ok "hi") []).finalCalledWith =
      some ([Message.user "hi", Message.assistant amPlain], []) :=
  ⟨rfl, (c6_final_call_always envPlain [] [] "hi" rfl).1,
   (c6_final_call_always envPlain [] [] "hi" rfl).2 amPlain [] rfl rfl⟩

/-! ## Claim C2 -/

/-- Claim C2: for a turn whose first-call assistant message carries K
tool-call requests, all of which parse and execute successfully, exactly K
tool-role messages are appended, the i-th correlated (id and tool name)
with the i-th request, every request is passed to the executor in the
order the client returned them, and the final-synthesis call is issued
with all K already appended. -/
theorem c2_tool_messages (env : Env) (tools : List FormattedTool) (ms : List Message)
    (u : String) (am : AssistantMessage) (cr : List Choice)
    (h1 : env.create (ms ++ [Message.user u]) tools = Except.ok ⟨⟨am⟩ :: cr⟩)
    (hok : ∀ tc ∈ am.tool_calls, ∃ a r,
        env.jsonLoads tc.function.arguments = Except.ok a ∧
        env.callTool tc.function.name a = Except.ok r) :
    ∃ tms : List Message,
      List.Forall₂ toolMsgMatches am.tool_calls tms ∧
      tms.length = am.tool_calls.length ∧
      (runTurn env tools (Except.ok u) ms).messages =
        ms ++ [Message.user u, Message.assistant am] ++ tms ∧
      (runTurn env tools (Except.ok u) ms).executed = am.tool_calls ∧
      (runTurn env tools (Except.ok u) ms).finalCalledWith =
        some (ms ++ [Message.user u, Message.assistant am] ++ tms, tools) := by
  obtain ⟨tms, hall, heq⟩ := runToolCalls_all_ok env am.tool_calls hok
    ((ms ++ [Message.user u]) ++ [Message.assistant am])
  have hb := runTurnBody_choice env tools u ms ⟨⟨am⟩ :: cr⟩ ⟨am⟩ cr h1 rfl
  simp only [Choice_message_mk] at hb
  have haf := afterFirst_ok env tools (ms ++ [Message.user u]) am _ _ heq
  have hfields := runTurn_eq_body_fields env tools (Except.ok u) ms
  have hbody : runTurnBody env tools (Except.ok u) ms =
      finalPhase env tools (((ms ++ [Message.user u]) ++ [Message.assistant am]) ++ tms)
        am.tool_calls (some (ms ++ [Message.user u], tools)) := by
    rw [hb, haf]
  refine ⟨tms, hall, hall.length_eq.symm, ?_, ?_, ?_⟩
  · rw [hfields.1, hbody]
    cases hfin : env.create (((ms ++ [Message.user u]) ++ [Message.assistant am]) ++ tms) tools with
    | error e2 => rw [finalPhase_error env tools _ _ _ e2 hfin]; simp
    | ok r2 => rw [finalPhase_ok env tools _ _ _ r2 hfin]; simp
  · rw [hfields.2.1, hbody]
    cases hfin : env.create (((ms ++ [Message.user u]) ++ [Message.assistant am]) ++ tms) tools with
    | error e2 => rw [finalPhase_error env tools _ _ _ e2 hfin]
    | ok r2 => rw [finalPhase_ok env tools _ _ _ r2 hfin]
  · rw [hfields.2.2.2, hbody]
    cases hfin : env.create (((ms ++ [Message.user u]) ++ [Message.assistant am]) ++ tms) tools with
    | error e2 => rw [finalPhase_error env tools _ _ _ e2 hfin]; simp
    | ok r2 => rw [finalPhase_ok env tools _ _ _ r2 hfin]; simp

/-- Witness for C2: two well-formed tool calls both succeed. -/
theorem c2_tool_messages_witness :
    ((envWith amTwoCalls).create [Message.user "hi"] [] = Except.ok ⟨[⟨amTwoCalls⟩]⟩) ∧
    (∃ tms : List Message,
      List.Forall₂ toolMsgMatches amTwoCalls.tool_calls tms ∧
      tms.length = amTwoCalls.tool_calls.length ∧
      (runTurn (envWith amTwoCalls) [] (Except.ok "hi") []).messages =
        [] ++ [Message.user "hi", Message.assistant amTwoCalls] ++ tms ∧
      (runTurn (envWith amTwoCalls) [] (Except.ok "hi") []).executed = amTwoCalls.tool_calls ∧
      (runTurn (envWith amTwoCalls) [] (Except.ok "hi") []).finalCalledWith =
        some ([] ++ [Message.user "hi", Message.assistant amTwoCalls] ++ tms, [])) :=
  ⟨rfl, c2_tool_messages (envWith amTwoCalls) [] [] "hi" amTwoCalls [] rfl
    (by
      intro tc htc
      have h2 : tc = tcA ∨ tc = tcB := by simpa [amTwoCalls] using htc
      rcases h2 with h | h <;> subst h
      · exact ⟨⟨"{}"⟩, ⟨tcA.function.name⟩, rfl, rfl⟩
      · exact ⟨⟨"{}"⟩, ⟨tcB.function.name⟩, rfl, rfl⟩)⟩

/-- When every request before `c` succeeds but the arguments payload of `c`
fails to parse, the loop stops right there: one matching tool-role message
per earlier request, only the earlier requests reached the executor, and
the parse exception escapes. -/
theorem runToolCalls_parse_fail_at (env : Env) (pre : List ToolCall) (c : ToolCall)
    (post : List ToolCall) (e : Exc)
    (hpre : ∀ tc ∈ pre, ∃ a r, env.jsonLoads tc.function.arguments = Except.ok a ∧
        env.callTool tc.function.name a = Except.ok r)
    (hc : env.jsonLoads c.function.arguments = Except.error e) :
    ∀ ms : List Message, ∃ tms : List Message,
      List.Forall₂ toolMsgMatches pre tms ∧
      runToolCalls env (pre ++ c :: post) ms = ⟨ms ++ tms, pre, some e⟩ := by
  induction pre with
  | nil =>
    intro ms
    refine ⟨[], List.Forall₂.nil, ?_⟩
    rw [List.nil_append, runToolCalls_cons_parseError env c post ms e hc]
    simp
  | cons tc rest ih =>
    intro ms
    obtain ⟨a, r, hj, hcall⟩ := hpre tc (List.mem_cons_self tc rest)
    obtain ⟨tms, hall, heq⟩ :=
      ih (fun x hx => hpre x (List.mem_cons_of_mem tc hx))
        (ms ++ [Message.tool tc.id tc.function.name r.content])
    refine ⟨Message.tool tc.id tc.function.name r.content :: tms,
      List.Forall₂.cons ⟨r.content, rfl⟩ hall, ?_⟩
    rw [List.cons_append, runToolCalls_cons_ok env tc (rest ++ c :: post) ms a r hj hcall, heq]
    simp

/-! ## Claim C1 -/

/-- Counterexample to claim C1: a turn whose assistant message carries two
tool-call requests, the first with a malformed arguments payload.  The
claim says an error-content tool-role message is still appended for the
failed call and the second request is still executed; in fact no tool-role
message at all is appended, no request ever reaches the executor, no
final-synthesis call is issued, and the whole turn aborts with the parse
exception caught at the iteration boundary. -/
theorem c1_counterexample :
    (runTurn (envWith amBadFirst) [] (Except.ok "list my vms") []).messages =
      [Message.user "list my vms", Message.assistant amBadFirst] ∧
    (runTurn (envWith amBadFirst) [] (Except.ok "list my vms") []).executed = [] ∧
    (runTurn (envWith amBadFirst) [] (Except.ok "list my vms") []).finalCalledWith = none ∧
    (runTurn (envWith amBadFirst) [] (Except.ok "list my vms") []).outcome =
      Outcome.caught jsonDecodeError := by
  decide

/-- Claim C1 as amended: a failure of an individual call (here: its
arguments payload failing to parse) does NOT fail only that call -- it
aborts the turn.  No error-content tool-role message is appended for the
failed call, the remaining tool-call requests of the same turn are not
executed, no final-synthesis call is issued, and the exception is caught
at the iteration boundary; the messages appended before the failure are
retained. -/
theorem c1_amended (env : Env) (tools : List FormattedTool) (ms : List Message)
    (u : String) (am : AssistantMessage) (cr : List Choice)
    (pre : List ToolCall) (c : ToolCall) (post : List ToolCall) (e : Exc)
    (h1 : env.create (ms ++ [Message.user u]) tools = Except.ok ⟨⟨am⟩ :: cr⟩)
    (hsplit : am.tool_calls = pre ++ c :: post)
    (hpre : ∀ tc ∈ pre, ∃ a r, env.jsonLoads tc.function.arguments = Except.ok a ∧
        env.callTool tc.function.name a = Except.ok r)
    (hc : env.jsonLoads c.function.arguments = Except.error e)
    (hcat : e.catchable = true) :
    ∃ tms : List Message,
      List.Forall₂ toolMsgMatches pre tms ∧
      (runTurn env tools (Except.ok u) ms).messages =
        ms ++ [Message.user u, Message.assistant am] ++ tms ∧
      (runTurn env tools (Except.ok u) ms).executed = pre ∧
      (runTurn env tools (Except.ok u) ms).finalCalledWith = none ∧
      (runTurn env tools (Except.ok u) ms).outcome = Outcome.caught e := by
  obtain ⟨tms, hall, heq⟩ := runToolCalls_parse_fail_at env pre c post e hpre hc
    ((ms ++ [Message.user u]) ++ [Message.assistant am])
  have hb := runTurnBody_choice env tools u ms ⟨⟨am⟩ :: cr⟩ ⟨am⟩ cr h1 rfl
  simp only [Choice_message_mk] at hb
  have htl : runToolCalls env am.tool_calls
      ((ms ++ [Message.user u]) ++ [Message.assistant am]) =
      ⟨((ms ++ [Message.user u]) ++ [Message.assistant am]) ++ tms, pre, some e⟩ := by
    rw [hsplit]
    exact heq
  have haf := afterFirst_exc env tools (ms ++ [Message.user u]) am _ _ e htl
  have hbody : runTurnBody env tools (Except.ok u) ms =
      ⟨((ms ++ [Message.user u]) ++ [Message.assistant am]) ++ tms, [], pre,
       some (ms ++ [Message.user u], tools), none, some e⟩ := by
    rw [hb, haf]
  have ht := runTurn_caught env tools (Except.ok u) ms _ _ _ _ _ e hbody hcat
  refine ⟨tms, hall, ?_, by rw [ht], by rw [ht], by rw [ht]⟩
  rw [ht]
  simp

/-- Witness for the amended C1: the very first request is malformed, so
nothing is executed and the turn aborts. -/
theorem c1_amended_witness :
    ((envWith amBadFirst).jsonLoads tcBad.function.arguments = Except.error jsonDecodeError) ∧
    (∃ tms : List Message,
      List.Forall₂ toolMsgMatches [] tms ∧
      (runTurn (envWith amBadFirst) [] (Except.ok "list my vms") []).messages =
        [] ++ [Message.user "list my vms", Message.assistant amBadFirst] ++ tms ∧
      (runTurn (envWith amBadFirst) [] (Except.ok "list my vms") []).executed = [] ∧
      (runTurn (envWith amBadFirst) [] (Except.ok "list my vms") []).finalCalledWith = none ∧
      (runTurn (envWith amBadFirst) [] (Except.ok "list my vms") []).outcome =
        Outcome.caught jsonDecodeError) :=
  ⟨rfl, c1_amended (envWith amBadFirst) [] [] "list my vms" amBadFirst [] [] tcBad [tcB]
    jsonDecodeError rfl rfl (fun tc htc => absurd htc (List.not_mem_nil tc)) rfl rfl⟩

/-! ## Claim C10 -/

/-- Claim C10: when the j-th tool call of a turn is the first to raise
(parse or execution), conversation state for that turn holds exactly the
user message, the assistant message, and one matching tool-role message
per call before the j-th; nothing appended is rolled back, the calls after
the j-th never reach the executor, and no final-synthesis call is issued. -/
theorem c10_prefix_preserved (env : Env) (tools : List FormattedTool) (ms : List Message)
    (u : String) (am : AssistantMessage) (cr : List Choice)
    (pre : List ToolCall) (c : ToolCall) (post : List ToolCall) (e : Exc)
    (h1 : env.create (ms ++ [Message.user u]) tools = Except.ok ⟨⟨am⟩ :: cr⟩)
    (hsplit : am.tool_calls = pre ++ c :: post)
    (hpre : ∀ tc ∈ pre, ∃ a r, env.jsonLoads tc.function.arguments = Except.ok a ∧
        env.callTool tc.function.name a = Except.ok r)
    (hfail : env.jsonLoads c.function.arguments = Except.error e ∨
        ∃ a, env.jsonLoads c.function.arguments = Except.ok a ∧
            env.callTool c.function.name a = Except.error e)
    (hcat : e.catchable = true) :
    ∃ tms : List Message,
      List.Forall₂ toolMsgMatches pre tms ∧
      (runTurn env tools (Except.ok u) ms).messages =
        ms ++ [Message.user u, Message.assistant am] ++ tms ∧
      ((runTurn env tools (Except.ok u) ms).executed = pre ∨
        (runTurn env tools (Except.ok u) ms).executed = pre ++ [c]) ∧
      (runTurn env tools (Except.ok u) ms).finalCalledWith = none ∧
      (runTurn env tools (Except.ok u) ms).outcome = Outcome.caught e := by
  obtain ⟨tms, hall, hmsgs, hexec, hexc⟩ := runToolCalls_fail_at env pre c post e hpre hfail
    ((ms ++ [Message.user u]) ++ [Message.assistant am])
  have hb := runTurnBody_choice env tools u ms ⟨⟨am⟩ :: cr⟩ ⟨am⟩ cr h1 rfl
  simp only [Choice_message_mk] at hb
  have htl : runToolCalls env am.tool_calls
      ((ms ++ [Message.user u]) ++ [Message.assistant am]) =
      ⟨(runToolCalls env (pre ++ c :: post)
          ((ms ++ [Message.user u]) ++ [Message.assistant am])).messages,
       (runToolCalls env (pre ++ c :: post)
          ((ms ++ [Message.user u]) ++ [Message.assistant am])).executed, some e⟩ := by
    rw [hsplit, ← hexc]
  have haf := afterFirst_exc env tools (ms ++ [Message.user u]) am _ _ e htl
  have hbody : runTurnBody env tools (Except.ok u) ms =
      ⟨(runToolCalls env (pre ++ c :: post)
          ((ms ++ [Message.user u]) ++ [Message.assistant am])).messages, [],
       (runToolCalls env (pre ++ c :: post)
          ((ms ++ [Message.user u]) ++ [Message.assistant am])).executed,
       some (ms ++ [Message.user u], tools), none, some e⟩ := by
    rw [hb, haf]
  have ht := runTurn_caught env tools (Except.ok u) ms _ _ _ _ _ e hbody hcat
  refine ⟨tms, hall, ?_, ?_, by rw [ht], by rw [ht]⟩
  · rw [ht]
    show (runToolCalls env (pre ++ c :: post)
        ((ms ++ [Message.user u]) ++ [Message.assistant am])).messages = _
    rw [hmsgs]
    simp
  · rw [ht]
    exact hexec

/-- Witness for C10: the first call succeeds, the second fails to parse;
exactly one tool-role message survives and the executor never sees a
call beyond the failing one. -/
theorem c10_prefix_preserved_witness :
    (amGoodThenBad.tool_calls = [tcA] ++ tcBad :: []) ∧
    (∃ tms : List Message,
      List.Forall₂ toolMsgMatches [tcA] tms ∧
      (runTurn (envWith amGoodThenBad) [] (Except.ok "go") []).messages =
        [] ++ [Message.user "go", Message.assistant amGoodThenBad] ++ tms ∧
      ((runTurn (envWith amGoodThenBad) [] (Except.ok "go") []).executed = [tcA] ∨
        (runTurn (envWith amGoodThenBad) [] (Except.ok "go") []).executed = [tcA] ++ [tcBad]) ∧
      (runTurn (envWith amGoodThenBad) [] (Except.ok "go") []).finalCalledWith = none ∧
      (runTurn (envWith amGoodThenBad) [] (Except.ok "go") []).outcome =
        Outcome.caught jsonDecodeError) :=
  ⟨rfl, c10_prefix_preserved (envWith amGoodThenBad) [] [] "go" amGoodThenBad [] [tcA] tcBad []
    jsonDecodeError rfl rfl
    (by
      intro tc htc
      have h2 : tc = tcA := by simpa using htc
      subst h2
      exact ⟨⟨"{}"⟩, ⟨tcA.function.name⟩, rfl, rfl⟩)
    (Or.inl rfl) rfl⟩

/-! ## Claim C3 -/

/-- The expected conversation shape of tool-free turns: one user message
followed by one assistant message per turn, in turn order. -/
def interleave : List String → List AssistantMessage → List Message
  | u :: us, am :: ams => Message.user u :: Message.assistant am :: interleave us ams
  | _, _ => []

theorem interleave_length (inputs : List String) :
    ∀ asms : List AssistantMessage, asms.length = inputs.length →
      (interleave inputs asms).length = 2 * inputs.length := by
  induction inputs with
  | nil => intro asms h; cases asms with
    | nil => rfl
    | cons a as => simp at h
  | cons u us ih =>
    intro asms h
    cases asms with
    | nil => simp at h
    | cons a as =>
      simp only [List.length_cons] at h
      have := ih as (by omega)
      simp only [interleave, List.length_cons, this]
      ring

/-- One tool-free turn under a client that always succeeds with a
no-tool-call head candidate: exactly the user and assistant messages are
appended and the iteration completes. -/
theorem runTurn_noToolTurn (env : Env) (tools : List FormattedTool)
    (h : ∀ ms2, ∃ am cr, env.create ms2 tools = Except.ok ⟨⟨am⟩ :: cr⟩ ∧ am.tool_calls = [])
    (ms : List Message) (u : String) :
    ∃ am printed f1 f2, runTurn env tools (Except.ok u) ms =
      ⟨ms ++ [Message.user u, Message.assistant am], printed, [], f1, f2, Outcome.completed⟩ := by
  obtain ⟨am, cr, hcr, hnt⟩ := h (ms ++ [Message.user u])
  have hb := runTurnBody_choice env tools u ms ⟨⟨am⟩ :: cr⟩ ⟨am⟩ cr hcr rfl
  simp only [Choice_message_mk] at hb
  have htl : runToolCalls env am.tool_calls
      ((ms ++ [Message.user u]) ++ [Message.assistant am]) =
      ⟨(ms ++ [Message.user u]) ++ [Message.assistant am], [], none⟩ := by
    rw [hnt, runToolCalls_nil]
  have haf := afterFirst_ok env tools (ms ++ [Message.user u]) am _ _ htl
  obtain ⟨am2, cr2, hcr2, _⟩ := h ((ms ++ [Message.user u]) ++ [Message.assistant am])
  have hfp := finalPhase_ok env tools ((ms ++ [Message.user u]) ++ [Message.assistant am]) []
    (some (ms ++ [Message.user u], tools)) ⟨⟨am2⟩ :: cr2⟩ hcr2
  have hbody : runTurnBody env tools (Except.ok u) ms =
      ⟨(ms ++ [Message.user u]) ++ [Message.assistant am],
       (Response.mk (⟨am2⟩ :: cr2)).choices.map (fun item => item.message.content), [],
       some (ms ++ [Message.user u], tools),
       some ((ms ++ [Message.user u]) ++ [Message.assistant am], tools), none⟩ := by
    rw [hb, haf, hfp]
  have ht := runTurn_completed env tools (Except.ok u) ms _ _ _ _ _ hbody
  refine ⟨am, (Response.mk (⟨am2⟩ :: cr2)).choices.map (fun item => item.message.content),
    some (ms ++ [Message.user u], tools),
    some ((ms ++ [Message.user u]) ++ [Message.assistant am], tools), ?_⟩
  rw [ht]
  simp

/-- The loop over tool-free turns, generalized over the starting state:
each turn appends its user/assistant pair and the loop never terminates
early. -/
theorem runLoop_noTools (env : Env) (tools : List FormattedTool)
    (h : ∀ ms2, ∃ am cr, env.create ms2 tools = Except.ok ⟨⟨am⟩ :: cr⟩ ∧ am.tool_calls = []) :
    ∀ (inputs : List String) (ms0 : List Message),
      ∃ asms : List AssistantMessage, asms.length = inputs.length ∧
        (runLoop env tools (inputs.map Except.ok) ms0).messages =
          ms0 ++ interleave inputs asms ∧
        (runLoop env tools (inputs.map Except.ok) ms0).terminated = false := by
  intro inputs
  induction inputs with
  | nil =>
    intro ms0
    exact ⟨[], rfl, by simp [runLoop_nil, interleave], by simp [runLoop_nil]⟩
  | cons u us ih =>
    intro ms0
    obtain ⟨am, printed, f1, f2, hturn⟩ := runTurn_noToolTurn env tools h ms0 u
    obtain ⟨asms, hlen, hmsgs, hterm⟩ := ih (ms0 ++ [Message.user u, Message.assistant am])
    refine ⟨am :: asms, by simp [hlen], ?_, ?_⟩
    · simp only [List.map_cons]
      rw [runLoop_cons_completed env tools (Except.ok u) (us.map Except.ok) ms0 _ _ _ _ _ hturn]
      show (runLoop env tools (us.map Except.ok)
        (ms0 ++ [Message.user u, Message.assistant am])).messages = _
      rw [hmsgs]
      simp [interleave]
    · simp only [List.map_cons]
      rw [runLoop_cons_completed env tools (Except.ok u) (us.map Except.ok) ms0 _ _ _ _ _ hturn]
      show (runLoop env tools (us.map Except.ok)
        (ms0 ++ [Message.user u, Message.assistant am])).terminated = _
      exact hterm

/-- Claim C3: over any sequence of user turns in which the client always
succeeds and never requests tools, conversation state afterwards is
exactly one user message followed by one assistant message per turn, in
chronological order -- 2N messages for N turns -- and in particular no
final-synthesis text is ever persisted as a third message of a turn. -/
theorem c3_no_tool_turns (env : Env) (tools : List FormattedTool)
    (h : ∀ ms2, ∃ am cr, env.create ms2 tools = Except.ok ⟨⟨am⟩ :: cr⟩ ∧ am.tool_calls = [])
    (inputs : List String) :
    ∃ asms : List AssistantMessage, asms.length = inputs.length ∧
      (runLoop env tools (inputs.map Except.ok) []).messages = interleave inputs asms ∧
      (runLoop env tools (inputs.map Except.ok) []).messages.length = 2 * inputs.length := by
  obtain ⟨asms, hlen, hmsgs, _⟩ := runLoop_noTools env tools h inputs []
  refine ⟨asms, hlen, by simpa using hmsgs, ?_⟩
  rw [hmsgs]
  simpa using interleave_length inputs asms hlen

/-- Witness for C3: two tool-free turns leave exactly four messages. -/
theorem c3_no_tool_turns_witness :
    ∃ asms : List AssistantMessage, asms.length = (["a", "b"] : List String).length ∧
      (runLoop envPlain [] ((["a", "b"] : List String).map Except.ok) []).messages =
        interleave ["a", "b"] asms ∧
      (runLoop envPlain [] ((["a", "b"] : List String).map Except.ok) []).messages.length =
        2 * (["a", "b"] : List String).length :=
  c3_no_tool_turns envPlain [] (fun _ => ⟨amPlain, [], rfl, rfl⟩) ["a", "b"]

/-! ## Claim C9 -/

/-- The tool-call loop consults only the deserializer and the executor, so
two environments agreeing on those run it identically. -/
theorem runToolCalls_congr (env₁ env₂ : Env)
    (hj : env₁.jsonLoads = env₂.jsonLoads) (hct : env₁.callTool = env₂.callTool)
    (cs : List ToolCall) :
    ∀ ms : List Message, runToolCalls env₁ cs ms = runToolCalls env₂ cs ms := by
  induction cs with
  | nil => intro ms; rfl
  | cons tc rest ih =>
    intro ms
    cases hjr : env₂.jsonLoads tc.function.arguments with
    | error e =>
      rw [runToolCalls_cons_parseError env₁ tc rest ms e (by rw [hj]; exact hjr),
        runToolCalls_cons_parseError env₂ tc rest ms e hjr]
    | ok a =>
      cases hcr : env₂.callTool tc.function.name a with
      | error e =>
        rw [runToolCalls_cons_execError env₁ tc rest ms a e (by rw [hj]; exact hjr)
            (by rw [hct]; exact hcr),
          runToolCalls_cons_execError env₂ tc rest ms a e hjr hcr]
      | ok r =>
        rw [runToolCalls_cons_ok env₁ tc rest ms a r (by rw [hj]; exact hjr)
            (by rw [hct]; exact hcr),
          runToolCalls_cons_ok env₂ tc rest ms a r hjr hcr,
          ih (ms ++ [Message.tool tc.id tc.function.name r.content])]

/-- The iteration is a function of its body alone. -/
theorem runTurn_of_body_eq (env₁ env₂ : Env) (tools : List FormattedTool)
    (ev : Except Exc String) (ms : List Message)
    (h : runTurnBody env₁ tools ev ms = runTurnBody env₂ tools ev ms) :
    runTurn env₁ tools ev ms = runTurn env₂ tools ev ms := by
  unfold runTurn
  rw [h]

/-- Claim C9: only the head candidate `choices[0]` of the first inference
response is appended and consulted for tool calls -- the whole observable
turn is unchanged if the extra first-call candidates are replaced by
anything else -- the appended assistant message is exactly the message of
the head candidate, and, when the turn completes, the printed output is the
content of every candidate of the final-synthesis response. -/
theorem c9_first_choice_only (env₁ env₂ : Env) (tools : List FormattedTool)
    (ms : List Message) (u : String) (c0 : Choice) (r1 r2 : List Choice)
    (hj : env₁.jsonLoads = env₂.jsonLoads) (hct : env₁.callTool = env₂.callTool)
    (h1 : env₁.create (ms ++ [Message.user u]) tools = Except.ok ⟨c0 :: r1⟩)
    (h2 : env₂.create (ms ++ [Message.user u]) tools = Except.ok ⟨c0 :: r2⟩)
    (hother : ∀ ms2 ts, ms2 ≠ ms ++ [Message.user u] → env₁.create ms2 ts = env₂.create ms2 ts) :
    runTurn env₁ tools (Except.ok u) ms = runTurn env₂ tools (Except.ok u) ms ∧
    (∃ suffix, (runTurn env₁ tools (Except.ok u) ms).messages =
      ms ++ [Message.user u, Message.assistant c0.message] ++ suffix) ∧
    ((runTurn env₁ tools (Except.ok u) ms).outcome = Outcome.completed →
      ∃ resp2, env₁.create (runTurn env₁ tools (Except.ok u) ms).messages tools =
          Except.ok resp2 ∧
        (runTurn env₁ tools (Except.ok u) ms).printed =
          resp2.choices.map (fun item => item.message.content)) := by
  have hb1 := runTurnBody_choice env₁ tools u ms ⟨c0 :: r1⟩ c0 r1 h1 rfl
  have hb2 := runTurnBody_choice env₂ tools u ms ⟨c0 :: r2⟩ c0 r2 h2 rfl
  have htl := runToolCalls_congr env₁ env₂ hj hct c0.message.tool_calls
    ((ms ++ [Message.user u]) ++ [Message.assistant c0.message])
  obtain ⟨t, ht⟩ := runToolCalls_messages_shape env₂ c0.message.tool_calls
    ((ms ++ [Message.user u]) ++ [Message.assistant c0.message])
  rcases hX : runToolCalls env₂ c0.message.tool_calls
      ((ms ++ [Message.user u]) ++ [Message.assistant c0.message]) with ⟨msgs, executed, exc⟩
  rw [hX] at htl ht
  simp only at ht
  have hbodyeq : runTurnBody env₁ tools (Except.ok u) ms =
      runTurnBody env₂ tools (Except.ok u) ms := by
    rw [hb1, hb2]
    cases exc with
    | some e =>
      rw [afterFirst_exc env₁ tools (ms ++ [Message.user u]) c0.message msgs executed e htl,
        afterFirst_exc env₂ tools (ms ++ [Message.user u]) c0.message msgs executed e hX]
    | none =>
      rw [afterFirst_ok env₁ tools (ms ++ [Message.user u]) c0.message msgs executed htl,
        afterFirst_ok env₂ tools (ms ++ [Message.user u]) c0.message msgs executed hX]
      have hne : msgs ≠ ms ++ [Message.user u] := by
        intro heq
        have hlen := congrArg List.length heq
        rw [ht] at hlen
        simp at hlen
      have hcreq := hother msgs tools hne
      unfold finalPhase
      rw [hcreq]
  have hsuffix : ∃ suffix, (runTurn env₁ tools (Except.ok u) ms).messages =
      ms ++ [Message.user u, Message.assistant c0.message] ++ suffix := by
    rw [(runTurn_eq_body_fields env₁ tools (Except.ok u) ms).1, hb1]
    cases exc with
    | some e =>
      rw [afterFirst_exc env₁ tools (ms ++ [Message.user u]) c0.message msgs executed e htl]
      exact ⟨t, by rw [ht]; simp⟩
    | none =>
      rw [afterFirst_ok env₁ tools (ms ++ [Message.user u]) c0.message msgs executed htl]
      cases hfin : env₁.create msgs tools with
      | error e2 =>
        rw [finalPhase_error env₁ tools msgs executed _ e2 hfin]
        exact ⟨t, by rw [ht]; simp⟩
      | ok resp2 =>
        rw [finalPhase_ok env₁ tools msgs executed _ resp2 hfin]
        exact ⟨t, by rw [ht]; simp⟩
  refine ⟨runTurn_of_body_eq env₁ env₂ tools (Except.ok u) ms hbodyeq, hsuffix, ?_⟩
  intro hdone
  have hnone := (runTurn_completed_iff env₁ tools (Except.ok u) ms).mp hdone
  obtain ⟨_, resp2, hok, hpr⟩ := runTurnBody_exc_none_spec env₁ tools (Except.ok u) ms hnone
  refine ⟨resp2, ?_, ?_⟩
  · rw [(runTurn_eq_body_fields env₁ tools (Except.ok u) ms).1]
    exact hok
  · rw [runTurn_printed_eq_body env₁ tools (Except.ok u) ms]
    exact hpr

/-- Environment whose first call of the session returns two candidate
completions (head `amPlain`, plus an extra candidate). -/
def envTwoChoices : Env :=
  ⟨fun ms2 _ => if ms2 = [Message.user "hi"] then Except.ok ⟨[⟨amPlain⟩, ⟨⟨"extra", []⟩⟩]⟩
    else Except.ok respPlain,
   fun s => Except.ok ⟨s⟩, fun n _ => Except.ok ⟨n⟩⟩

/-- Environment identical to `envTwoChoices` except that the extra
candidate of the first call is dropped. -/
def envOneChoice : Env :=
  ⟨fun ms2 _ => if ms2 = [Message.user "hi"] then Except.ok ⟨[⟨amPlain⟩]⟩
    else Except.ok respPlain,
   fun s => Except.ok ⟨s⟩, fun n _ => Except.ok ⟨n⟩⟩

/-- Witness for C9: dropping the extra first-call candidate leaves the
whole observable turn unchanged. -/
theorem c9_first_choice_only_witness :
    runTurn envTwoChoices [] (Except.ok "hi") [] = runTurn envOneChoice [] (Except.ok "hi") [] ∧
    (∃ suffix, (runTurn envTwoChoices [] (Except.ok "hi") []).messages =
      [] ++ [Message.user "hi", Message.assistant amPlain] ++ suffix) ∧
    ((runTurn envTwoChoices [] (Except.ok "hi") []).outcome = Outcome.completed →
      ∃ resp2, envTwoChoices.create (runTurn envTwoChoices [] (Except.ok "hi") []).messages [] =
          Except.ok resp2 ∧
        (runTurn envTwoChoices [] (Except.ok "hi") []).printed =
          resp2.choices.map (fun item => item.message.content)) :=
  c9_first_choice_only envTwoChoices envOneChoice [] [] "hi" ⟨amPlain⟩ [⟨⟨"extra", []⟩⟩] []
    rfl rfl rfl rfl
    (fun ms2 ts hne => by
      show (if ms2 = [Message.user "hi"] then _ else _) =
        (if ms2 = [Message.user "hi"] then _ else _)
      rw [if_neg (by simpa using hne), if_neg (by simpa using hne)])
